import Mathlib

/-!
# Verification of the `thescraper` persona-research service

A shallow embedding, in Lean 4, of the deterministic core of the service:
URL-derived handle/slug extraction, link-based deduplication of evidence
items, the tweet-to-post normalization, the X-API fetch error handling,
the agent (tool-calling) loop over model responses, the seeded initial
transcript, and the terminal-output JSON validator.

The definitions are translated from the TypeScript source (the canonical
latest revision, plus the earlier revision of `index.ts` where a claim
refers to it).  Platform builtins the source relies on (`JSON.parse`,
`JSON.stringify`, the WHATWG `URL` constructor, JavaScript string
truthiness) are modelled explicitly below, with their modelled scope
stated in each doc comment.
-/

namespace TheScraper

/-! ## JavaScript string/character helpers -/

/-- JavaScript truthiness of a possibly-absent string value
(`undefined`/`null` and the empty string are falsy). -/
def jsTruthyStr : Option String → Bool
  | none => false
  | some s => s ≠ ""

/-- JavaScript template-literal rendering of a possibly-absent string
(`undefined` interpolates as the text `undefined`). -/
def jsTemplateStr : Option String → String
  | none => "undefined"
  | some s => s

/-- Split a character list at the first occurrence of `needle`,
returning the part before it and the part after it. `none` when
`needle` does not occur. -/
def splitFirstSub (needle : List Char) : List Char → Option (List Char × List Char)
  | [] => if needle = [] then some ([], []) else none
  | c :: cs =>
    if needle.isPrefixOf (c :: cs) then some ([], (c :: cs).drop needle.length)
    else
      match splitFirstSub needle cs with
      | some (pre, post) => some (c :: pre, post)
      | none => none

/-- `hay.includes(needle)` for JavaScript strings: substring containment. -/
def strIncludes (hay needle : String) : Bool :=
  (splitFirstSub needle.toList hay.toList).isSome

/-- JavaScript `s.replace(pat, "")` with a plain (non-regex) single-character
pattern: removes only the FIRST occurrence of the character. -/
def jsRemoveFirstChar (pat : Char) (s : String) : String :=
  match splitFirstSub [pat] s.toList with
  | some (pre, post) => String.mk (pre ++ post)
  | none => s

/-- Split a character list on a separator character (JavaScript
`s.split(sep)` semantics: empty fields are kept). -/
def splitOnChar (sep : Char) : List Char → List (List Char)
  | [] => [[]]
  | c :: cs =>
    if c = sep then [] :: splitOnChar sep cs
    else
      match splitOnChar sep cs with
      | [] => [[c]]
      | f :: fs => (c :: f) :: fs

/-- First ~200 characters of a string (`text.slice(0, 200)`). -/
def slice200 (s : String) : String := String.mk (s.toList.take 200)

/-! ## JSON values

The source manipulates JSON through the JavaScript builtins `JSON.parse`
and `JSON.stringify`.  We model JSON documents as a tree; a numeric leaf
stores its source lexeme (none of the verified properties interpret a
number's value, so no float semantics are needed). -/

inductive JValue where
  | null
  | bool (b : Bool)
  | num (lexeme : String)
  | str (s : String)
  | arr (elems : List JValue)
  | obj (fields : List (String × JValue))
deriving Repr

/-- JSON whitespace (the four characters JSON allows between tokens). -/
def isJsonWs (c : Char) : Bool :=
  c = ' ' || c = '\t' || c = '\n' || c = '\r'

def skipWs (cs : List Char) : List Char := cs.dropWhile isJsonWs

def isHexDigit (c : Char) : Bool :=
  c.isDigit || ('a' ≤ c && c ≤ 'f') || ('A' ≤ c && c ≤ 'F')

def hexVal (c : Char) : Nat :=
  if c.isDigit then c.toNat - '0'.toNat
  else if 'a' ≤ c && c ≤ 'f' then c.toNat - 'a'.toNat + 10
  else if 'A' ≤ c && c ≤ 'F' then c.toNat - 'A'.toNat + 10
  else 0

/-- Parse the body of a JSON string literal (after the opening quote),
returning the decoded characters and the remaining input.  Models the
string grammar of `JSON.parse`: `\"`, `\\`, `\/`, `\b`, `\f`, `\n`,
`\r`, `\t` and `\uXXXX` escapes; unescaped control characters are
rejected.  (Surrogate pairing of `\u` escapes is not modelled; no
verified property depends on it.) -/
def parseStringBody (fuel : Nat) (cs : List Char) : Option (List Char × List Char) :=
  match fuel with
  | 0 => none
  | fuel + 1 =>
    match cs with
    | [] => none
    | '"' :: rest => some ([], rest)
    | '\\' :: e :: rest =>
      let dec : Option (Char × List Char) :=
        if e = '"' then some ('"', rest)
        else if e = '\\' then some ('\\', rest)
        else if e = '/' then some ('/', rest)
        else if e = 'b' then some ('\x08', rest)
        else if e = 'f' then some ('\x0c', rest)
        else if e = 'n' then some ('\n', rest)
        else if e = 'r' then some ('\r', rest)
        else if e = 't' then some ('\t', rest)
        else if e = 'u' then
          match rest with
          | h1 :: h2 :: h3 :: h4 :: rest2 =>
            if isHexDigit h1 && isHexDigit h2 && isHexDigit h3 && isHexDigit h4 then
              some (Char.ofNat (((hexVal h1 * 16 + hexVal h2) * 16 + hexVal h3) * 16 + hexVal h4), rest2)
            else none
          | _ => none
        else none
      match dec with
      | some (c, rest2) =>
        match parseStringBody fuel rest2 with
        | some (body, rem) => some (c :: body, rem)
        | none => none
      | none => none
    | c :: rest =>
      if c.toNat < 32 then none
      else
        match parseStringBody fuel rest with
        | some (body, rem) => some (c :: body, rem)
        | none => none

/-- Parse a JSON number lexeme (`-?int frac? exp?`), returning the lexeme
and the remaining input.  Mirrors the strict JSON grammar (no leading
zeros, no bare `.`). -/
def parseNumberLex (cs : List Char) : Option (List Char × List Char) :=
  let (neg, cs1) : List Char × List Char :=
    match cs with
    | '-' :: rest => (['-'], rest)
    | _ => ([], cs)
  match cs1 with
  | [] => none
  | d :: _ =>
    if ¬ d.isDigit then none
    else
      let intPart := cs1.takeWhile Char.isDigit
      if intPart.length ≥ 2 && d = '0' then none
      else
        let rest1 := cs1.drop intPart.length
        let (fracPart, rest2) : List Char × List Char :=
          match rest1 with
          | '.' :: fr =>
            let ds := fr.takeWhile Char.isDigit
            if ds = [] then ([], rest1) else ('.' :: ds, fr.drop ds.length)
          | _ => ([], rest1)
        if rest1 ≠ rest2 ∨ fracPart = [] then
          -- either a valid fraction was consumed, or there was no '.' at all
          match rest1, fracPart with
          | '.' :: _, [] => none   -- a '.' with no digits after it is invalid
          | _, _ =>
            let (expPart, rest3) : List Char × List Char :=
              match rest2 with
              | e :: tail =>
                if e = 'e' ∨ e = 'E' then
                  let (sgn, tail2) : List Char × List Char :=
                    match tail with
                    | s :: t2 => if s = '+' ∨ s = '-' then ([s], t2) else ([], tail)
                    | [] => ([], tail)
                  let ds := tail2.takeWhile Char.isDigit
                  if ds = [] then ([], rest2) else (e :: (sgn ++ ds), tail2.drop ds.length)
                else ([], rest2)
              | [] => ([], rest2)
            some (neg ++ intPart ++ fracPart ++ expPart, rest3)
        else none

mutual
/-- Recursive-descent JSON value parser (fuel-indexed; the fuel strictly
decreases on every recursive call, and the top-level entry point supplies
more fuel than any input can consume). -/
def parseVal (fuel : Nat) (cs : List Char) : Option (JValue × List Char) :=
  match fuel with
  | 0 => none
  | fuel + 1 =>
    match skipWs cs with
    | [] => none
    | c :: rest =>
      if c = 'n' then
        if ['u', 'l', 'l'].isPrefixOf rest then some (.null, rest.drop 3) else none
      else if c = 't' then
        if ['r', 'u', 'e'].isPrefixOf rest then some (.bool true, rest.drop 3) else none
      else if c = 'f' then
        if ['a', 'l', 's', 'e'].isPrefixOf rest then some (.bool false, rest.drop 4) else none
      else if c = '"' then
        match parseStringBody (rest.length + 1) rest with
        | some (body, rem) => some (.str (String.mk body), rem)
        | none => none
      else if c = '[' then
        match skipWs rest with
        | ']' :: rem => some (.arr [], rem)
        | other =>
          match parseElems fuel other with
          | some (es, rem) => some (.arr es, rem)
          | none => none
      else if c = '\x7b' then
        match skipWs rest with
        | '\x7d' :: rem => some (.obj [], rem)
        | other =>
          match parseFields fuel other with
          | some (fs, rem) => some (.obj fs, rem)
          | none => none
      else
        match parseNumberLex (c :: rest) with
        | some (lex, rem) => some (.num (String.mk lex), rem)
        | none => none

/-- One-or-more comma-separated array elements, consuming the closing `]`. -/
def parseElems (fuel : Nat) (cs : List Char) : Option (List JValue × List Char) :=
  match fuel with
  | 0 => none
  | fuel + 1 =>
    match parseVal fuel cs with
    | none => none
    | some (v, rest) =>
      match skipWs rest with
      | ',' :: rest2 =>
        match parseElems fuel rest2 with
        | some (es, rem) => some (v :: es, rem)
        | none => none
      | ']' :: rem => some ([v], rem)
      | _ => none

/-- One-or-more comma-separated object members, consuming the closing brace. -/
def parseFields (fuel : Nat) (cs : List Char) : Option (List (String × JValue) × List Char) :=
  match fuel with
  | 0 => none
  | fuel + 1 =>
    match skipWs cs with
    | '"' :: rest =>
      match parseStringBody (rest.length + 1) rest with
      | none => none
      | some (key, rest2) =>
        match skipWs rest2 with
        | ':' :: rest3 =>
          match parseVal fuel rest3 with
          | none => none
          | some (v, rest4) =>
            match skipWs rest4 with
            | ',' :: rest5 =>
              match parseFields fuel rest5 with
              | some (fs, rem) => some ((String.mk key, v) :: fs, rem)
              | none => none
            | '\x7d' :: rem => some ([(String.mk key, v)], rem)
            | _ => none
        | _ => none
    | _ => none
end

/-- Model of the JavaScript builtin `JSON.parse` (as a total function to
`Option`: `none` models the thrown `SyntaxError`).  The whole input must
be one JSON value, up to surrounding whitespace. -/
def jsonParse (s : String) : Option JValue :=
  match parseVal (4 * s.length + 16) s.toList with
  | some (v, rest) => if skipWs rest = [] then some v else none
  | none => none

/-- Escaping of one character inside a serialized JSON string, mirroring
`JSON.stringify`. -/
def escapeJsonChar (c : Char) : List Char :=
  if c = '"' then ['\\', '"']
  else if c = '\\' then ['\\', '\\']
  else if c = '\n' then ['\\', 'n']
  else if c = '\r' then ['\\', 'r']
  else if c = '\t' then ['\\', 't']
  else if c = '\x08' then ['\\', 'b']
  else if c = '\x0c' then ['\\', 'f']
  else if c.toNat < 32 then
    let lo := c.toNat % 16
    let hi := (c.toNat / 16) % 16
    let hexDigit (n : Nat) : Char := if n < 10 then Char.ofNat ('0'.toNat + n) else Char.ofNat ('a'.toNat + n - 10)
    ['\\', 'u', '0', '0', hexDigit hi, hexDigit lo]
  else [c]

/-- Serialized JSON string literal (quotes included). -/
def serializeStr (s : String) : String :=
  String.mk ('"' :: (s.toList.flatMap escapeJsonChar) ++ ['"'])

mutual
/-- Model of the JavaScript builtin `JSON.stringify` (compact form, as used
for tool-message contents in the source). -/
def serializeVal : JValue → String
  | .null => "null"
  | .bool true => "true"
  | .bool false => "false"
  | .num lex => lex
  | .str s => serializeStr s
  | .arr es => "[" ++ serializeItems es ++ "]"
  | .obj fs => "\x7b" ++ serializeMembers fs ++ "\x7d"

def serializeItems : List JValue → String
  | [] => ""
  | [v] => serializeVal v
  | v :: rest => serializeVal v ++ "," ++ serializeItems rest

def serializeMembers : List (String × JValue) → String
  | [] => ""
  | [(k, v)] => serializeStr k ++ ":" ++ serializeVal v
  | (k, v) :: rest => serializeStr k ++ ":" ++ serializeVal v ++ "," ++ serializeMembers rest
end

/-! ## URL model

The source derives handles and slugs through the WHATWG `URL` builtin
(`new URL(s)`, reading `.hostname` and `.pathname`).  We model the
builtin for absolute `scheme://[userinfo@]host[:port]/path[?query][#frag]`
URLs: the hostname is the authority stripped of userinfo and port and
ASCII-lowercased; the pathname is the part from the first `/` after the
authority up to any `?` or `#` (defaulting to `/`).  Strings without a
`scheme://` prefix or with an empty authority model the thrown
`TypeError` as `none`.  (Percent-decoding, IPv6 bracket syntax, path
normalization and scheme-relative forms are outside the modelled scope;
every URL the claims mention is inside it.) -/

structure URLParts where
  hostname : String
  pathname : String
deriving Repr, DecidableEq

/-- A valid URL scheme: a letter followed by letters, digits, `+`, `-`, `.`. -/
def schemeOk (scheme : List Char) : Bool :=
  match scheme with
  | [] => false
  | c :: rest => c.isAlpha && rest.all (fun d => d.isAlphanum || d = '+' || d = '-' || d = '.')

/-- The authority with any `user[:pass]@` prefix removed (split at the
last `@`, as the URL grammar does). -/
def dropUserinfo (auth : List Char) : List Char :=
  match splitFirstSub ['@'] auth.reverse with
  | some (pre, _) => pre.reverse
  | none => auth

/-- Model of the JavaScript `new URL(s)` builtin restricted as described
above, returning its `hostname` and `pathname` components. -/
def parseURL (s : String) : Option URLParts :=
  match splitFirstSub [':', '/', '/'] s.toList with
  | none => none
  | some (scheme, rest) =>
    if schemeOk scheme then
      let auth := rest.takeWhile (fun c => c ≠ '/' && c ≠ '?' && c ≠ '#')
      let tail := rest.drop auth.length
      if auth = [] then none
      else
        let host := (dropUserinfo auth).takeWhile (· ≠ ':')
        let path : List Char :=
          match tail with
          | '/' :: _ => tail.takeWhile (fun c => c ≠ '?' && c ≠ '#')
          | _ => ['/']
        some ⟨String.mk (host.map Char.toLower), String.mk path⟩
    else none

/-- `u.pathname.split("/").filter(Boolean)`: the non-empty path segments. -/
def pathSegs (pathname : String) : List String :=
  ((splitOnChar '/' pathname.toList).map String.mk).filter (· ≠ "")

/-- `extractXUsername` (src/unnamed/part_003, lines 18-29): the first
path segment, with the first `@` removed, of a URL whose hostname
contains `x.com` or `twitter.com` as a substring; `null` otherwise. -/
def extractXUsername (xUrl : Option String) : Option String :=
  match xUrl with
  | none => none
  | some s =>
    if s = "" then none        -- `if (!xUrl) return null` is also taken for ""
    else
      match parseURL s with
      | none => none
      | some u =>
        if !(strIncludes u.hostname "x.com") && !(strIncludes u.hostname "twitter.com") then none
        else
          match pathSegs u.pathname with
          | [] => none
          | p :: _ =>
            let handle := jsRemoveFirstChar '@' p
            if handle = "" then none else some handle   -- `return parts[0].replace("@", "") || null`

/-- `findIndex((p) => p === "in")` over the path segments. -/
def firstInIdx : List String → Option Nat
  | [] => none
  | p :: rest => if p = "in" then some 0 else (firstInIdx rest).map (· + 1)

/-- `extractLinkedInSlug` (src/unnamed/part_003, lines 31-42): the
segment following the first path segment equal to `in`, with no host
validation at all; `null` when the URL does not parse or no such
segment pair exists. -/
def extractLinkedInSlug (linkedinUrl : Option String) : Option String :=
  match linkedinUrl with
  | none => none
  | some s =>
    if s = "" then none
    else
      match parseURL s with
      | none => none
      | some u =>
        let parts := pathSegs u.pathname
        match firstInIdx parts with
        | none => none
        | some i =>
          match parts[i + 1]? with
          | some nxt => if nxt = "" then none else some nxt  -- `if (inIdx >= 0 && parts[inIdx + 1])`
          | none => none

/-! ## Output validator -/

/-- `extractFirstJson` (src/unnamed/part_003, lines 44-49): the substring
from the first brace-open character through the last brace-close
character, or `null` when either is missing or they are mis-ordered. -/
def extractFirstJson (text : String) : Option String :=
  let cs := text.toList
  let start? := cs.findIdx? (· = '\x7b')
  let close? := (cs.reverse.findIdx? (· = '\x7d')).map (fun ri => cs.length - 1 - ri)
  match start?, close? with
  | some st, some en =>
    if en ≤ st then none
    else some (String.mk ((cs.drop st).take (en + 1 - st)))
  | _, _ => none

/-- The persona parse-with-fallback (src/unnamed/part_003, lines 413-420):
direct `JSON.parse`; on failure, `extractFirstJson` then `JSON.parse` of
the extract; the error strings model the thrown exceptions the outer
handler reports. -/
def validateOutput (content : String) : Except String JValue :=
  match jsonParse content with
  | some v => .ok v
  | none =>
    match extractFirstJson content with
    | none => .error "Model did not return JSON"
    | some ex =>
      match jsonParse ex with
      | some v => .ok v
      | none => .error ("SyntaxError: unexpected JSON input: " ++ ex)

/-! ## Link-based deduplication -/

/-- One evidence item as `dedupeByLink` sees it: only the `link` field is
inspected (`String(it?.link ?? "").trim()`); the `tag` field stands for
the rest of the item's payload so distinct items are distinguishable. -/
structure EvidenceItem where
  link : Option String
  tag : Nat
deriving Repr, DecidableEq

/-- JavaScript `s.trim()`: leading and trailing whitespace removed. -/
def jsTrim (s : String) : String :=
  String.mk (((s.toList.dropWhile Char.isWhitespace).reverse.dropWhile Char.isWhitespace).reverse)

/-- The dedup key of an item: `String(it?.link ?? "").trim()`. -/
def itemKey (it : EvidenceItem) : String := jsTrim (it.link.getD "")

/-- Worker for `dedupeByLink`, carrying the set of keys inserted so far.
The JavaScript original inserts first occurrences into a `Map` and
returns `Array.from(m.values())`; since a JavaScript `Map` iterates in
key-insertion order and keys are only set when absent, that equals the
subsequence of first occurrences kept here. -/
def dedupeAux (seen : List String) : List EvidenceItem → List EvidenceItem
  | [] => []
  | it :: rest =>
    let k := itemKey it
    if k = "" then dedupeAux seen rest
    else if k ∈ seen then dedupeAux seen rest
    else it :: dedupeAux (k :: seen) rest

/-- `dedupeByLink` (src/unnamed/part_003, lines 51-59). -/
def dedupeByLink (items : List EvidenceItem) : List EvidenceItem :=
  dedupeAux [] items

/-! ## X API fetch error handling -/

/-- One upstream HTTP response as the `fetch` caller observes it. -/
structure FetchResp where
  status : Nat
  body : String
deriving Repr, DecidableEq

/-- `res.ok`: status in the inclusive range 200-299. -/
def respOk (r : FetchResp) : Bool := 200 ≤ r.status && r.status ≤ 299

/-- `xApiFetchJson` (src/unnamed/part_003, lines 95-111), as a function of
the single upstream response it performs: every non-success status —
429 included — throws immediately with the status and body; a success
status with a non-JSON body throws; otherwise the parsed body is
returned.  There is no retry of any kind in this revision. -/
def xApiFetchJson (r : FetchResp) : Except String JValue :=
  if respOk r then
    match jsonParse r.body with
    | some v => .ok v
    | none => .error ("X API returned non-JSON: " ++ slice200 r.body)
  else .error ("X API error " ++ toString r.status ++ ": " ++ r.body)

/-- The fetch/retry logic of `executeXKeywordSearch` in the FIRST revision
of src/index.ts (lines 83-98): on HTTP 429 it waits and then re-invokes
itself recursively with no retry counter, so every consecutive 429
triggers a further attempt.  The input lists the successive upstream
responses; the empty list stands for an endless run of 429s, on which
the original recursion would never produce a value. -/
def xSearchFetchRev1 : List FetchResp → Except String FetchResp
  | [] => .error "upstream never stopped rate-limiting"
  | r :: rest =>
    if respOk r then .ok r
    else if r.status = 429 then xSearchFetchRev1 rest
    else .error ("X API error " ++ toString r.status ++ ": " ++ r.body)

/-! ## Tweet-to-post normalization -/

/-- One tweet object of an X API v2 payload, with every field the mapper
reads; absent JSON fields are `none`. -/
structure Tweet where
  id : Option String
  text : Option String
  created_at : Option String
  author_id : Option String
  conversation_id : Option String
  public_metrics : Option JValue

/-- One user object of the payload's `includes.users`. -/
structure XUser where
  id : Option String
  username : Option String
  name : Option String
  description : Option String
  location : Option String

/-- The `SocialPost` shape produced by `mapTweetsToPosts`. -/
structure SocialPost where
  text : String
  date : String
  author : Option String
  author_name : Option String
  author_bio : Option String
  author_location : Option String
  reply : Bool
  metrics : Option JValue
  link : Option String

/-- `new Map((includesUsers || []).map(u => [u.id, u])).get(tweet.author_id)`:
a JavaScript `Map` built from a list keeps the LAST entry per key. -/
def lookupUser (users : List XUser) (aid : Option String) : Option XUser :=
  users.reverse.find? (fun u => decide (u.id = aid))

/-- The body of `mapTweetsToPosts` (src/unnamed/part_003, lines 123-141)
for one tweet.  Note `isReply = tweet.conversation_id &&
tweet.conversation_id !== tweet.id`: a falsy (absent or empty)
conversation id short-circuits to a false `reply` flag. -/
def mapTweetToPost (users : List XUser) (tweet : Tweet) : SocialPost :=
  let user := lookupUser users tweet.author_id
  let isReply := jsTruthyStr tweet.conversation_id && decide (tweet.conversation_id ≠ tweet.id)
  { text := tweet.text.getD ""
    date := tweet.created_at.getD ""
    author := user.bind (·.username)
    author_name := user.bind (·.name)
    author_bio := user.bind (·.description)
    author_location := user.bind (·.location)
    reply := isReply
    metrics := tweet.public_metrics
    link :=
      match user.bind (·.username) with
      | some un =>
        if un = "" then none
        else some ("https://x.com/" ++ un ++ "/status/" ++ jsTemplateStr tweet.id)
      | none => none }

/-- `mapTweetsToPosts` (src/unnamed/part_003, lines 123-141). -/
def mapTweetsToPosts (tweets : List Tweet) (includesUsers : Option (List XUser)) : List SocialPost :=
  tweets.map (mapTweetToPost (includesUsers.getD []))

/-! ## The agent (Grok) loop -/

inductive Role where
  | system
  | user
  | assistant
  | tool
deriving Repr, DecidableEq

/-- One transcript message.  `content` is `none` where the wire value is
`null`/absent; `toolCallId` tags tool-result messages; `toolCalls` is
present only on assistant messages that request tool calls. -/
structure ToolCall where
  id : String
  name : String
  arguments : String
deriving Repr, DecidableEq

structure Msg where
  role : Role
  content : Option String
  toolCallId : Option String
  toolCalls : Option (List ToolCall)
deriving Repr, DecidableEq

/-- One model response, `choices[0].message`: possibly-null content plus
an optional list of tool-call requests (`none` models an absent
`tool_calls` field, which is what ends the loop). -/
structure AssistantResponse where
  content : Option String
  toolCalls : Option (List ToolCall)

def assistantMsgOf (r : AssistantResponse) : Msg :=
  ⟨.assistant, r.content, none, r.toolCalls⟩

/-- The two declared executors, abstracted as oracles over the parsed
argument object (the executors themselves are external-service calls;
argument-field extraction and defaulting such as `args.num_results ?? 10`
happens inside this boundary).  An `.error` models a thrown executor
exception, which the loop does not catch. -/
structure ToolEnv where
  webSearch : JValue → Except String JValue
  xKeywordSearch : JValue → Except String JValue

/-- The serialized `{error: "Unknown tool"}` payload of the dispatch's
`else` branch. -/
def unknownToolJson : JValue := .obj [("error", .str "Unknown tool")]

/-- Tool dispatch for one requested call (src/unnamed/part_003, lines
386-397): `JSON.parse` the arguments (a failure here is an uncaught
exception aborting the job), then dispatch by name; an unrecognized
name yields the in-band `{error: "Unknown tool"}` payload instead of
failing. -/
def dispatchToolCall (env : ToolEnv) (tc : ToolCall) : Except String JValue :=
  match jsonParse tc.arguments with
  | none => .error ("SyntaxError: invalid tool arguments: " ++ tc.arguments)
  | some args =>
    if tc.name = "web_search" then env.webSearch args
    else if tc.name = "x_keyword_search" then env.xKeywordSearch args
    else .ok unknownToolJson

/-- The tool message appended for one call: the JSON-serialized result
tagged with the call's id. -/
def execCall (env : ToolEnv) (tc : ToolCall) : Except String Msg :=
  (dispatchToolCall env tc).map fun r => ⟨.tool, some (serializeVal r), some tc.id, none⟩

/-- Sequential dispatch of all calls of one assistant turn, in the order
the model listed them. -/
def execCalls (env : ToolEnv) : List ToolCall → Except String (List Msg)
  | [] => .ok []
  | tc :: rest => do
    let m ← execCall env tc
    let ms ← execCalls env rest
    return m :: ms

/-- The messages one loop iteration appends to the transcript: the
assistant message, then one tool message per requested call. -/
def turnAppends (env : ToolEnv) (r : AssistantResponse) : Except String (List Msg) :=
  match r.toolCalls with
  | none => .ok [assistantMsgOf r]
  | some calls => (execCalls env calls).map (assistantMsgOf r :: ·)

/-- How one run of the Grok loop ends: a final answer (the response's
possibly-null content) after a number of model invocations, exhaustion
of the turn budget, or an uncaught exception (model-call failure is out
of scope here; `failed` covers tool dispatch). -/
inductive LoopOutcome where
  | answer (content : Option String) (turns : Nat)
  | exhausted (turns : Nat)
  | failed (err : String) (turns : Nat)
deriving Repr, DecidableEq

/-- The Grok loop (src/unnamed/part_003, lines 360-409; identically
bounded in the second revision of src/index.ts, lines 641-693), over an
abstract sequence `rs` of model responses indexed by invocation number:
each iteration appends the response; a response whose `tool_calls` field
is present (even an empty list, which is truthy in JavaScript) has its
calls dispatched and the loop continues; a response with no `tool_calls`
ends the loop with its content. -/
def grokLoopAux (env : ToolEnv) (rs : Nat → AssistantResponse) (i : Nat) : Nat → LoopOutcome
  | 0 => .exhausted i
  | fuel + 1 =>
    let r := rs i
    match r.toolCalls with
    | none => .answer r.content (i + 1)
    | some calls =>
      match execCalls env calls with
      | .error e => .failed e (i + 1)
      | .ok _ => grokLoopAux env rs (i + 1) fuel

/-- The loop entry point with its configured turn budget (`12` in the
canonical revision: `for (let i = 0; i < 12; i++)`). -/
def grokLoop (maxTurns : Nat) (env : ToolEnv) (rs : Nat → AssistantResponse) : LoopOutcome :=
  grokLoopAux env rs 0 maxTurns

/-! ## Seeded initial transcript -/

/-- The initial `messages` array (src/unnamed/part_003, lines 336-355;
same shape in the second revision of src/index.ts, lines 616-636): a
system message, a user message, then — only when the corresponding seed
result list is non-empty (`seedWeb.length` / `seedX.length` truthy) — a
synthetic tool message per seed list. -/
def initialMessages (systemPrompt userPrompt : String)
    (seedWeb seedX : List JValue) : List Msg :=
  [⟨.system, some systemPrompt, none, none⟩, ⟨.user, some userPrompt, none, none⟩]
    ++ (if seedWeb.length ≠ 0 then
          [⟨.tool, some (serializeVal (.arr seedWeb)), some "seed_web_search", none⟩]
        else [])
    ++ (if seedX.length ≠ 0 then
          [⟨.tool, some (serializeVal (.arr seedX)), some "seed_x_search", none⟩]
        else [])

/-- `sfx` is a suffix of `s` (string form, kernel-computable). -/
def strEndsWith (s sfx : String) : Bool :=
  List.isPrefixOf sfx.toList.reverse s.toList.reverse

/-- The straightforward reading of "an X/Twitter host", written from the
spec's words for the refinement comparison of the handle-extraction
claim: the hostname is `x.com` or `twitter.com` itself, or a subdomain
of one of them.  (The source instead tests substring containment.) -/
def hostIsXOrTwitterSpec (h : String) : Bool :=
  h = "x.com" || h = "twitter.com" || strEndsWith h ".x.com" || strEndsWith h ".twitter.com"

/-! ## Lemmas about link-based deduplication -/

theorem mem_dedupeAux : ∀ (l : List EvidenceItem) (seen : List String) (x : EvidenceItem),
    x ∈ dedupeAux seen l → itemKey x ≠ "" ∧ itemKey x ∉ seen := by
  intro l
  induction l with
  | nil => intro seen x h; simp [dedupeAux] at h
  | cons it rest ih =>
    intro seen x h
    simp only [dedupeAux] at h
    by_cases h1 : itemKey it = ""
    · rw [if_pos h1] at h; exact ih seen x h
    · rw [if_neg h1] at h
      by_cases h2 : itemKey it ∈ seen
      · rw [if_pos h2] at h; exact ih seen x h
      · rw [if_neg h2] at h
        rcases List.mem_cons.mp h with rfl | hmem
        · exact ⟨h1, h2⟩
        · have hx := ih _ x hmem
          exact ⟨hx.1, fun hs => hx.2 (List.mem_cons_of_mem _ hs)⟩

theorem keys_nodup_dedupeAux : ∀ (l : List EvidenceItem) (seen : List String),
    ((dedupeAux seen l).map itemKey).Nodup := by
  intro l
  induction l with
  | nil => intro seen; simp [dedupeAux]
  | cons it rest ih =>
    intro seen
    simp only [dedupeAux]
    by_cases h1 : itemKey it = ""
    · rw [if_pos h1]; exact ih seen
    · rw [if_neg h1]
      by_cases h2 : itemKey it ∈ seen
      · rw [if_pos h2]; exact ih seen
      · rw [if_neg h2]
        simp only [List.map_cons, List.nodup_cons]
        refine ⟨?_, ih _⟩
        intro hk
        rcases List.mem_map.mp hk with ⟨y, hy, hyk⟩
        have hfresh := mem_dedupeAux rest _ y hy
        apply hfresh.2
        rw [hyk]
        exact List.mem_cons_self _ _

theorem dedupeAux_of_fresh : ∀ (l : List EvidenceItem) (seen : List String),
    (∀ x ∈ l, itemKey x ≠ "" ∧ itemKey x ∉ seen) → (l.map itemKey).Nodup →
    dedupeAux seen l = l := by
  intro l
  induction l with
  | nil => intro seen _ _; rfl
  | cons it rest ih =>
    intro seen hfresh hnodup
    have h1 : itemKey it ≠ "" := (hfresh it (List.mem_cons_self _ _)).1
    have h2 : itemKey it ∉ seen := (hfresh it (List.mem_cons_self _ _)).2
    rw [List.map_cons] at hnodup
    have hnodup' := List.nodup_cons.mp hnodup
    simp only [dedupeAux, if_neg h1, if_neg h2]
    congr 1
    apply ih
    · intro x hx
      refine ⟨(hfresh x (List.mem_cons_of_mem _ hx)).1, ?_⟩
      intro hmem
      rcases List.mem_cons.mp hmem with heq | hseen
      · exact hnodup'.1 (List.mem_map.mpr ⟨x, hx, heq⟩)
      · exact (hfresh x (List.mem_cons_of_mem _ hx)).2 hseen
    · exact hnodup'.2

theorem countP_key_le_one : ∀ (l : List EvidenceItem),
    (l.map itemKey).Nodup → ∀ k : String, l.countP (fun x => itemKey x == k) ≤ 1 := by
  intro l
  induction l with
  | nil => intro _ k; simp
  | cons it rest ih =>
    intro hnodup k
    rw [List.map_cons] at hnodup
    have hnodup' := List.nodup_cons.mp hnodup
    rw [List.countP_cons]
    by_cases hk : itemKey it = k
    · have hzero : rest.countP (fun x => itemKey x == k) = 0 := by
        apply List.countP_eq_zero.mpr
        intro x hx
        simp only [beq_iff_eq]
        intro hxk
        exact hnodup'.1 (List.mem_map.mpr ⟨x, hx, by rw [hxk, hk]⟩)
      simp [hzero, hk]
    · have hp : (fun x => itemKey x == k) it = false := by simp [hk]
      simp only [hp, if_false]
      simpa using ih hnodup'.2 k

theorem dedupeAux_find? : ∀ (l : List EvidenceItem) (seen : List String) (k : String),
    k ≠ "" → k ∉ seen →
    (dedupeAux seen l).find? (fun x => itemKey x == k) = l.find? (fun x => itemKey x == k) := by
  intro l
  induction l with
  | nil => intro seen k _ _; rfl
  | cons it rest ih =>
    intro seen k hk hks
    simp only [dedupeAux]
    by_cases h1 : itemKey it = ""
    · rw [if_pos h1, ih seen k hk hks, List.find?_cons_of_neg]
      simp only [beq_iff_eq]
      intro h
      exact hk (h.symm.trans h1)
    · rw [if_neg h1]
      by_cases h2 : itemKey it ∈ seen
      · rw [if_pos h2, ih seen k hk hks, List.find?_cons_of_neg]
        simp only [beq_iff_eq]
        intro h
        exact hks (h ▸ h2)
      · rw [if_neg h2]
        by_cases h3 : itemKey it = k
        · rw [List.find?_cons_of_pos, List.find?_cons_of_pos] <;> simp [h3]
        · rw [List.find?_cons_of_neg, List.find?_cons_of_neg, ih (itemKey it :: seen) k hk]
          · intro hmem
            rcases List.mem_cons.mp hmem with heq | hseen
            · exact h3 heq.symm
            · exact hks hseen
          · simp [h3]
          · simp [h3]

/-- C5: `dedupe` is idempotent, keeps at most one item per distinct
non-empty link, and keeps the first occurrence of each link. -/
theorem dedupeByLink_idempotent_unique_first :
    (∀ L : List EvidenceItem, dedupeByLink (dedupeByLink L) = dedupeByLink L) ∧
    (∀ (L : List EvidenceItem) (k : String), k ≠ "" →
      (dedupeByLink L).countP (fun x => itemKey x == k) ≤ 1) ∧
    (∀ (L : List EvidenceItem) (k : String), k ≠ "" →
      (dedupeByLink L).find? (fun x => itemKey x == k) = L.find? (fun x => itemKey x == k)) := by
  refine ⟨?_, ?_, ?_⟩
  · intro L
    apply dedupeAux_of_fresh
    · intro x hx
      exact ⟨(mem_dedupeAux L [] x hx).1, by simp⟩
    · exact keys_nodup_dedupeAux L []
  · intro L k _
    exact countP_key_le_one _ (keys_nodup_dedupeAux L []) k
  · intro L k hk
    exact dedupeAux_find? L [] k hk (by simp)

theorem dedupeByLink_idempotent_unique_first_witness :
    ("a" : String) ≠ "" ∧
      (dedupeByLink [⟨some "a", 0⟩, ⟨some "b", 1⟩, ⟨some "a", 2⟩]).countP
          (fun x => itemKey x == "a") ≤ 1 :=
  ⟨by decide, dedupeByLink_idempotent_unique_first.2.1 _ "a" (by decide)⟩

/-- C10: every item whose link is absent or trims to the empty string is
dropped; the output only carries items with a non-empty trimmed link;
and on a concrete duplicate-free input the output is strictly shorter
than the input. -/
theorem dedupeByLink_drops_empty_links :
    (∀ (L : List EvidenceItem) (x : EvidenceItem), x ∈ L → itemKey x = "" → x ∉ dedupeByLink L) ∧
    (∀ (L : List EvidenceItem) (x : EvidenceItem), x ∈ dedupeByLink L → itemKey x ≠ "") ∧
    (([⟨none, 0⟩, ⟨some "a", 1⟩] : List EvidenceItem).Pairwise (fun a b => a.link ≠ b.link) ∧
      (dedupeByLink [⟨none, 0⟩, ⟨some "a", 1⟩]).length <
        ([⟨none, 0⟩, ⟨some "a", 1⟩] : List EvidenceItem).length) := by
  refine ⟨?_, ?_, ?_, ?_⟩
  · intro L x _ hkey hmem
    exact (mem_dedupeAux L [] x hmem).1 hkey
  · intro L x hmem
    exact (mem_dedupeAux L [] x hmem).1
  · decide
  · decide

theorem dedupeByLink_drops_empty_links_witness :
    (⟨none, 0⟩ : EvidenceItem) ∉ dedupeByLink [⟨none, 0⟩, ⟨some "a", 1⟩] :=
  dedupeByLink_drops_empty_links.1 _ ⟨none, 0⟩ (List.mem_cons_self _ _) rfl

/-! ## The output validator (C3) -/

/-- C3, counterexample: the input `"1"` contains no brace at all, yet the
Output Validator succeeds on it (the direct parse already succeeds), so
"for any input containing no brace pair it fails" is false as stated. -/
theorem validateOutput_no_brace_success_cex :
    "1".toList.contains '\x7b' = false ∧ "1".toList.contains '\x7d' = false ∧
    validateOutput "1" = .ok (JValue.num "1") :=
  ⟨rfl, rfl, rfl⟩

/-- C3, amended: direct parse first; on failure the first-brace-to-last-brace
substring is parsed; the job fails exactly when the direct parse fails AND
(no such substring exists or its parse also fails).  On the given example
the validator yields the object with field `a` mapped to `1`. -/
theorem validateOutput_fallback :
    validateOutput "here is data: \x7b\"a\":1\x7d trailing text" = .ok (.obj [("a", .num "1")]) ∧
    (∀ s v, jsonParse s = some v → validateOutput s = .ok v) ∧
    (∀ s, jsonParse s = none → extractFirstJson s = none →
      validateOutput s = .error "Model did not return JSON") ∧
    (∀ s ex, jsonParse s = none → extractFirstJson s = some ex → jsonParse ex = none →
      validateOutput s = .error ("SyntaxError: unexpected JSON input: " ++ ex)) ∧
    (∀ s ex v, jsonParse s = none → extractFirstJson s = some ex → jsonParse ex = some v →
      validateOutput s = .ok v) := by
  refine ⟨rfl, ?_, ?_, ?_, ?_⟩
  · intro s v h; simp [validateOutput, h]
  · intro s h1 h2; simp [validateOutput, h1, h2]
  · intro s ex h1 h2 h3; simp [validateOutput, h1, h2, h3]
  · intro s ex v h1 h2 h3; simp [validateOutput, h1, h2, h3]

theorem validateOutput_fallback_witness :
    validateOutput "no braces at all" = .error "Model did not return JSON" :=
  validateOutput_fallback.2.2.1 "no braces at all" rfl rfl

/-! ## Handle extraction (C7) -/

theorem parseURL_empty : parseURL "" = none := rfl

/-- C7, counterexample: the host check is substring containment
(`u.hostname.includes("x.com")`), so the non-X/Twitter host `mx.com`
is accepted and a handle is returned, where the claim requires `null`
for URLs on any other host. -/
theorem extractXUsername_substring_host_cex :
    extractXUsername (some "https://mx.com/jdoe") = some "jdoe" ∧
    (parseURL "https://mx.com/jdoe").map URLParts.hostname = some "mx.com" ∧
    hostIsXOrTwitterSpec "mx.com" = false :=
  ⟨rfl, rfl, rfl⟩

/-- C7, amended: the accepted hosts are exactly those whose hostname
CONTAINS `x.com` or `twitter.com` as a substring; for such URLs the
result is the first path segment with its first `@` removed (or `null`
when that leaves the empty string); `null` for unparseable URLs, empty
paths, and all other hosts.  The two concrete examples hold as stated. -/
theorem extractXUsername_characterization :
    extractXUsername (some "https://x.com/jdoe") = some "jdoe" ∧
    extractXUsername (some "https://example.com/jdoe") = none ∧
    extractXUsername none = none ∧
    (∀ s, parseURL s = none → extractXUsername (some s) = none) ∧
    (∀ s u, parseURL s = some u →
      strIncludes u.hostname "x.com" = false → strIncludes u.hostname "twitter.com" = false →
      extractXUsername (some s) = none) ∧
    (∀ s u, parseURL s = some u →
      (strIncludes u.hostname "x.com" || strIncludes u.hostname "twitter.com") = true →
      pathSegs u.pathname = [] → extractXUsername (some s) = none) ∧
    (∀ s u p ps, parseURL s = some u →
      (strIncludes u.hostname "x.com" || strIncludes u.hostname "twitter.com") = true →
      pathSegs u.pathname = p :: ps →
      extractXUsername (some s) =
        (if jsRemoveFirstChar '@' p = "" then none else some (jsRemoveFirstChar '@' p))) := by
  refine ⟨rfl, rfl, rfl, ?_, ?_, ?_, ?_⟩
  · intro s h
    by_cases hs : s = ""
    · subst hs; rfl
    · simp [extractXUsername, hs, h]
  · intro s u h h1 h2
    have hs : s ≠ "" := by intro he; rw [he, parseURL_empty] at h; cases h
    simp [extractXUsername, hs, h, h1, h2]
  · intro s u h hhost hseg
    have hs : s ≠ "" := by intro he; rw [he, parseURL_empty] at h; cases h
    have hcond :
        (!(strIncludes u.hostname "x.com") && !(strIncludes u.hostname "twitter.com")) = false := by
      cases hx : strIncludes u.hostname "x.com" <;>
        cases ht : strIncludes u.hostname "twitter.com" <;> simp_all
    simp [extractXUsername, hs, h, hcond, hseg]
  · intro s u p ps h hhost hseg
    have hs : s ≠ "" := by intro he; rw [he, parseURL_empty] at h; cases h
    have hcond :
        (!(strIncludes u.hostname "x.com") && !(strIncludes u.hostname "twitter.com")) = false := by
      cases hx : strIncludes u.hostname "x.com" <;>
        cases ht : strIncludes u.hostname "twitter.com" <;> simp_all
    simp [extractXUsername, hs, h, hcond, hseg]

theorem extractXUsername_characterization_witness :
    extractXUsername (some "not a url") = none :=
  extractXUsername_characterization.2.2.2.1 "not a url" rfl

/-! ## Slug extraction (C9) -/

theorem firstInIdx_spec : ∀ (parts : List String) (j : Nat),
    firstInIdx parts = some j → parts[j]? = some "in" ∧ ∀ i < j, parts[i]? ≠ some "in" := by
  intro parts
  induction parts with
  | nil => intro j h; simp [firstInIdx] at h
  | cons p rest ih =>
    intro j h
    by_cases hp : p = "in"
    · simp only [firstInIdx, if_pos hp, Option.some.injEq] at h
      subst h
      exact ⟨by simp [hp], fun i hi => absurd hi (by omega)⟩
    · simp only [firstInIdx, if_neg hp, Option.map_eq_some'] at h
      obtain ⟨j', hj', rfl⟩ := h
      have hspec := ih j' hj'
      refine ⟨by simpa using hspec.1, ?_⟩
      intro i hi
      match i with
      | 0 => simpa using fun he => hp he
      | i' + 1 =>
        have : i' < j' := by omega
        simpa using hspec.2 i' this

theorem firstInIdx_none_iff : ∀ (parts : List String), firstInIdx parts = none ↔ "in" ∉ parts := by
  intro parts
  induction parts with
  | nil => simp [firstInIdx]
  | cons p rest ih =>
    by_cases hp : p = "in"
    · simp [firstInIdx, hp]
    · simp only [firstInIdx, if_neg hp, Option.map_eq_none', ih, List.mem_cons]
      constructor
      · intro hnot hor
        rcases hor with he | hm
        · exact hp he.symm
        · exact hnot hm
      · intro hnot hm
        exact hnot (Or.inr hm)

theorem firstInIdx_pair_iff : ∀ (parts : List String),
    (∃ i, parts[i]? = some "in" ∧ i + 1 < parts.length) ↔
    (∃ j, firstInIdx parts = some j ∧ j + 1 < parts.length) := by
  intro parts
  constructor
  · rintro ⟨i, hi, hlen⟩
    cases hj : firstInIdx parts with
    | none =>
      exfalso
      have hmem : "in" ∈ parts := by
        have := List.getElem?_eq_some_iff.mp hi
        obtain ⟨hlt, he⟩ := this
        exact he ▸ List.getElem_mem hlt
      exact (firstInIdx_none_iff parts).mp hj hmem
    | some j =>
      have hspec := firstInIdx_spec parts j hj
      have hji : j ≤ i := by
        by_contra hgt
        exact hspec.2 i (by omega) hi
      exact ⟨j, rfl, by omega⟩
  · rintro ⟨j, hj, hlen⟩
    exact ⟨j, (firstInIdx_spec parts j hj).1, hlen⟩

/-- C9: `extractLinkedInSlug` validates no host at all: for every URL that
parses — `example.com` included — it returns the segment after the first
path segment equal to `in` whenever one exists (always a non-empty
segment), and `null` exactly when the URL does not parse or no such
segment pair exists. -/
theorem extractLinkedInSlug_no_host_validation :
    extractLinkedInSlug (some "https://example.com/in/jane-doe") = some "jane-doe" ∧
    extractLinkedInSlug none = none ∧
    (∀ s, parseURL s = none → extractLinkedInSlug (some s) = none) ∧
    (∀ s u, parseURL s = some u →
      ((∃ i, (pathSegs u.pathname)[i]? = some "in" ∧ i + 1 < (pathSegs u.pathname).length) →
        ∃ j x, firstInIdx (pathSegs u.pathname) = some j ∧
          (pathSegs u.pathname)[j]? = some "in" ∧
          (pathSegs u.pathname)[j + 1]? = some x ∧ x ≠ "" ∧
          extractLinkedInSlug (some s) = some x) ∧
      ((¬ ∃ i, (pathSegs u.pathname)[i]? = some "in" ∧ i + 1 < (pathSegs u.pathname).length) →
        extractLinkedInSlug (some s) = none)) := by
  refine ⟨rfl, rfl, ?_, ?_⟩
  · intro s h
    by_cases hs : s = ""
    · subst hs; rfl
    · simp [extractLinkedInSlug, hs, h]
  · intro s u h
    have hs : s ≠ "" := by intro he; rw [he, parseURL_empty] at h; cases h
    constructor
    · intro hex
      obtain ⟨j, hj, hlen⟩ := (firstInIdx_pair_iff _).mp hex
      obtain ⟨x, hx⟩ : ∃ x, (pathSegs u.pathname)[j + 1]? = some x := by
        have := List.getElem?_eq_getElem hlen
        exact ⟨_, this⟩
      have hxmem : x ∈ pathSegs u.pathname := by
        have := List.getElem?_eq_some_iff.mp hx
        obtain ⟨hlt, he⟩ := this
        exact he ▸ List.getElem_mem hlt
      have hxne : x ≠ "" := by
        have := List.of_mem_filter hxmem
        simpa using this
      refine ⟨j, x, hj, (firstInIdx_spec _ j hj).1, hx, hxne, ?_⟩
      simp [extractLinkedInSlug, hs, h, hj, hx, hxne]
    · intro hnex
      cases hj : firstInIdx (pathSegs u.pathname) with
      | none => simp [extractLinkedInSlug, hs, h, hj]
      | some j =>
        have hnone : (pathSegs u.pathname)[j + 1]? = none := by
          rw [List.getElem?_eq_none_iff]
          by_contra hlt
          push_neg at hlt
          exact hnex ⟨j, (firstInIdx_spec _ j hj).1, by omega⟩
        simp [extractLinkedInSlug, hs, h, hj, hnone]

theorem extractLinkedInSlug_no_host_validation_witness :
    extractLinkedInSlug (some "definitely not a url") = none :=
  extractLinkedInSlug_no_host_validation.2.2.1 "definitely not a url" rfl

/-! ## Tweet reply flag (C6) -/

/-- C6, counterexample: a tweet whose `conversation_id` is absent while its
own `id` is present.  The conversation identifier (absent) differs from
the tweet's identifier, and the claim says `reply` must then be true —
but the truthiness guard `tweet.conversation_id && ...` short-circuits,
and the mapped post has `reply = false`. -/
theorem mapTweetsToPosts_absent_conversation_cex :
    (mapTweetsToPosts
        [⟨some "123", some "hello", some "2024-01-01T00:00:00Z", some "u1", none, none⟩]
        (some [⟨some "u1", some "jdoe", some "Jane Doe", none, none⟩])).map SocialPost.reply
      = [false] ∧
    (none : Option String) ≠ some "123" :=
  ⟨rfl, by decide⟩

/-- C6, amended: the mapped `reply` flag is true exactly when the tweet's
conversation identifier is PRESENT and non-empty AND differs from the
tweet's own identifier; an absent (or empty) conversation identifier
always yields `reply = false`, even when the tweet's own identifier is
present. -/
theorem mapTweetsToPosts_reply_iff :
    ∀ (tweets : List Tweet) (includesUsers : Option (List XUser)) (i : Nat) (t : Tweet),
      tweets[i]? = some t →
      ∃ p, (mapTweetsToPosts tweets includesUsers)[i]? = some p ∧
        (p.reply = true ↔
          ∃ c, t.conversation_id = some c ∧ c ≠ "" ∧ t.conversation_id ≠ t.id) := by
  intro tweets includesUsers i t ht
  refine ⟨mapTweetToPost (includesUsers.getD []) t, ?_, ?_⟩
  · rw [mapTweetsToPosts, List.getElem?_map, ht, Option.map_some']
  · cases hc : t.conversation_id with
    | none => simp [mapTweetToPost, jsTruthyStr, hc]
    | some c =>
      simp only [mapTweetToPost, jsTruthyStr, hc, Bool.and_eq_true, decide_eq_true_eq,
        Option.some.injEq, ne_eq]
      constructor
      · rintro ⟨h1, h2⟩
        exact ⟨c, rfl, h1, h2⟩
      · rintro ⟨c', rfl, h1, h2⟩
        exact ⟨h1, h2⟩

theorem mapTweetsToPosts_reply_iff_witness :
    ∃ p, (mapTweetsToPosts [⟨some "1", none, none, none, some "9", none⟩] none)[0]? = some p ∧
      (p.reply = true ↔
        ∃ c, (⟨some "1", none, none, none, some "9", none⟩ : Tweet).conversation_id = some c ∧
          c ≠ "" ∧
          (⟨some "1", none, none, none, some "9", none⟩ : Tweet).conversation_id ≠
            (⟨some "1", none, none, none, some "9", none⟩ : Tweet).id) :=
  mapTweetsToPosts_reply_iff [⟨some "1", none, none, none, some "9", none⟩] none 0
    ⟨some "1", none, none, none, some "9", none⟩ rfl

/-! ## X API 429 handling (C2) -/

/-- C2, counterexample.  First conjunct (canonical revision): a single 429
propagates immediately — even though a retry would have found a success
response — so "retried exactly once" is false.  Second conjunct (first
revision of src/index.ts): two consecutive 429s followed by a success
yield the success, so "a second consecutive 429 propagates as an
upstream error" is false there too. -/
theorem xApiFetch_429_cex :
    xApiFetchJson ⟨429, "Too Many Requests"⟩ = .error "X API error 429: Too Many Requests" ∧
    xSearchFetchRev1 [⟨429, "a"⟩, ⟨429, "b"⟩, ⟨200, "\x7b\x7d"⟩] = .ok ⟨200, "\x7b\x7d"⟩ :=
  ⟨rfl, rfl⟩

/-- C2, amended: in the canonical revision a 429 is never retried — every
non-success status, 429 included, propagates immediately as an error
carrying the status and response body; in the first revision a 429 is
retried after the backoff an UNBOUNDED number of times (each consecutive
429 triggers a further attempt), while any other non-success status
propagates immediately with status and body. -/
theorem xApiFetch_error_propagation :
    (∀ r : FetchResp, respOk r = false →
      xApiFetchJson r = .error ("X API error " ++ toString r.status ++ ": " ++ r.body)) ∧
    (∀ (r : FetchResp) (rest : List FetchResp), r.status = 429 →
      xSearchFetchRev1 (r :: rest) = xSearchFetchRev1 rest) ∧
    (∀ (r : FetchResp) (rest : List FetchResp), respOk r = false → r.status ≠ 429 →
      xSearchFetchRev1 (r :: rest) =
        .error ("X API error " ++ toString r.status ++ ": " ++ r.body)) := by
  refine ⟨?_, ?_, ?_⟩
  · intro r h
    simp [xApiFetchJson, h]
  · intro r rest h
    have hok : respOk r = false := by simp [respOk, h]
    simp [xSearchFetchRev1, hok, h]
  · intro r rest h h429
    simp [xSearchFetchRev1, h, h429]

theorem xApiFetch_error_propagation_witness :
    xApiFetchJson ⟨500, "oops"⟩ = .error "X API error 500: oops" :=
  xApiFetch_error_propagation.1 ⟨500, "oops"⟩ (by decide)

/-! ## Seeded initial transcript (C8) -/

/-- C8: the initial transcript is exactly one system message, then one
user message, then a synthetic seed tool message per NON-EMPTY seed
list; some tool message exists iff some seed list is non-empty, so when
both seeds are empty the first model invocation sees no tool message at
all. -/
theorem initialMessages_shape :
    ∀ (sp up : String) (seedWeb seedX : List JValue),
      (initialMessages sp up seedWeb seedX).take 2 =
        [⟨.system, some sp, none, none⟩, ⟨.user, some up, none, none⟩] ∧
      (∀ m ∈ (initialMessages sp up seedWeb seedX).drop 2, m.role = .tool) ∧
      ((∃ m ∈ initialMessages sp up seedWeb seedX, m.role = .tool) ↔
        seedWeb ≠ [] ∨ seedX ≠ []) ∧
      (seedWeb = [] → seedX = [] →
        initialMessages sp up seedWeb seedX =
          [⟨.system, some sp, none, none⟩, ⟨.user, some up, none, none⟩]) := by
  intro sp up seedWeb seedX
  rcases seedWeb with _ | ⟨w, ws⟩ <;> rcases seedX with _ | ⟨x, xs⟩ <;>
    simp [initialMessages]

theorem initialMessages_shape_witness :
    initialMessages "sys" "go" [] [] =
      [⟨.system, some "sys", none, none⟩, ⟨.user, some "go", none, none⟩] :=
  (initialMessages_shape "sys" "go" [] []).2.2.2 rfl rfl

/-! ## Unknown tool dispatch (C4) -/

/-- C4: a tool call whose name matches neither declared executor does not
abort the request: dispatch yields (for any executor environment) the
in-band serialized `{error: "Unknown tool"}` payload tagged with the
call's id, the appended turn messages are the assistant message followed
by that tool message, and the loop proceeds to the next turn. -/
theorem unknown_tool_graceful :
    ∀ (env : ToolEnv) (tc : ToolCall) (args : JValue),
      tc.name ≠ "web_search" → tc.name ≠ "x_keyword_search" →
      jsonParse tc.arguments = some args →
      execCall env tc =
        .ok ⟨.tool, some "\x7b\"error\":\"Unknown tool\"\x7d", some tc.id, none⟩ ∧
      (∀ (rs : Nat → AssistantResponse) (i fuel : Nat) (c : Option String),
        rs i = ⟨c, some [tc]⟩ →
        grokLoopAux env rs i (fuel + 1) = grokLoopAux env rs (i + 1) fuel) ∧
      (∀ c : Option String,
        turnAppends env ⟨c, some [tc]⟩ =
          .ok [assistantMsgOf ⟨c, some [tc]⟩,
            ⟨.tool, some "\x7b\"error\":\"Unknown tool\"\x7d", some tc.id, none⟩]) := by
  intro env tc args hn1 hn2 hargs
  have hdisp : dispatchToolCall env tc = .ok unknownToolJson := by
    simp [dispatchToolCall, hargs, hn1, hn2]
  have hmsg : execCall env tc =
      .ok ⟨.tool, some "\x7b\"error\":\"Unknown tool\"\x7d", some tc.id, none⟩ := by
    simp only [execCall, hdisp, Except.map]
    rfl
  have hcalls : execCalls env [tc] =
      .ok [⟨.tool, some "\x7b\"error\":\"Unknown tool\"\x7d", some tc.id, none⟩] := by
    simp only [execCalls, hmsg]
    rfl
  refine ⟨hmsg, ?_, ?_⟩
  · intro rs i fuel c hrs
    simp only [grokLoopAux, hrs, hcalls]
  · intro c
    simp only [turnAppends, hcalls]
    rfl

theorem unknown_tool_graceful_witness :
    execCall ⟨fun _ => .ok .null, fun _ => .ok .null⟩ ⟨"call_1", "browse_page", "\x7b\x7d"⟩ =
      .ok ⟨.tool, some "\x7b\"error\":\"Unknown tool\"\x7d", some "call_1", none⟩ ∧
    grokLoopAux ⟨fun _ => .ok .null, fun _ => .ok .null⟩
        (fun _ => ⟨none, some [⟨"call_1", "browse_page", "\x7b\x7d"⟩]⟩) 0 4 =
      grokLoopAux ⟨fun _ => .ok .null, fun _ => .ok .null⟩
        (fun _ => ⟨none, some [⟨"call_1", "browse_page", "\x7b\x7d"⟩]⟩) 1 3 :=
  ⟨(unknown_tool_graceful _ ⟨"call_1", "browse_page", "\x7b\x7d"⟩ (.obj [])
      (by decide) (by decide) rfl).1,
   (unknown_tool_graceful _ ⟨"call_1", "browse_page", "\x7b\x7d"⟩ (.obj [])
      (by decide) (by decide) rfl).2.1 _ 0 3 none rfl⟩

/-! ## Agent-loop turn budget (C1) -/

theorem grokLoopAux_exhaust (env : ToolEnv) (rs : Nat → AssistantResponse) :
    ∀ (fuel i : Nat),
      (∀ j, i ≤ j → j < i + fuel →
        ∃ calls ms, (rs j).toolCalls = some calls ∧ execCalls env calls = .ok ms) →
      grokLoopAux env rs i fuel = .exhausted (i + fuel) := by
  intro fuel
  induction fuel with
  | zero => intro i _; simp [grokLoopAux]
  | succ f ih =>
    intro i h
    obtain ⟨calls, ms, hc, he⟩ := h i (Nat.le_refl i) (by omega)
    simp only [grokLoopAux, hc, he]
    have := ih (i + 1) (fun j hj1 hj2 => h j (by omega) (by omega))
    rw [this]
    congr 1
    omega

theorem grokLoopAux_answer_iff (env : ToolEnv) (rs : Nat → AssistantResponse) :
    ∀ (fuel i : Nat) (c : Option String) (n : Nat),
      grokLoopAux env rs i fuel = .answer c n ↔
        ∃ k, i ≤ k ∧ k < i + fuel ∧ n = k + 1 ∧ (rs k).toolCalls = none ∧
          c = (rs k).content ∧
          ∀ j, i ≤ j → j < k →
            ∃ calls ms, (rs j).toolCalls = some calls ∧ execCalls env calls = .ok ms := by
  intro fuel
  induction fuel with
  | zero =>
    intro i c n
    constructor
    · intro h; exact absurd h (by simp [grokLoopAux])
    · rintro ⟨k, h1, h2, -⟩; omega
  | succ f ih =>
    intro i c n
    cases hc : (rs i).toolCalls with
    | none =>
      simp only [grokLoopAux, hc]
      constructor
      · intro h
        rw [LoopOutcome.answer.injEq] at h
        exact ⟨i, Nat.le_refl i, by omega, h.2.symm, hc, h.1.symm,
          fun j hj1 hj2 => absurd hj2 (by omega)⟩
      · rintro ⟨k, hk1, hk2, hn, hnone, hcc, hall⟩
        rcases Nat.eq_or_lt_of_le hk1 with rfl | hlt
        · rw [hcc, hn]
        · obtain ⟨calls, ms, hsome, -⟩ := hall i (Nat.le_refl i) hlt
          rw [hc] at hsome; cases hsome
    | some calls =>
      cases he : execCalls env calls with
      | error e =>
        simp only [grokLoopAux, hc, he]
        constructor
        · intro h; cases h
        · rintro ⟨k, hk1, hk2, hn, hnone, hcc, hall⟩
          rcases Nat.eq_or_lt_of_le hk1 with rfl | hlt
          · rw [hc] at hnone; cases hnone
          · obtain ⟨calls', ms', hsome, hok⟩ := hall i (Nat.le_refl i) hlt
            rw [hc] at hsome
            injection hsome with hceq
            subst hceq
            rw [he] at hok
            cases hok
      | ok ms =>
        simp only [grokLoopAux, hc, he]
        rw [ih (i + 1) c n]
        constructor
        · rintro ⟨k, hk1, hk2, hn, hnone, hcc, hall⟩
          refine ⟨k, by omega, by omega, hn, hnone, hcc, ?_⟩
          intro j hj1 hj2
          rcases Nat.eq_or_lt_of_le hj1 with rfl | hlt
          · exact ⟨calls, ms, hc, he⟩
          · exact hall j (by omega) hj2
        · rintro ⟨k, hk1, hk2, hn, hnone, hcc, hall⟩
          have hki : i < k := by
            rcases Nat.eq_or_lt_of_le hk1 with rfl | h
            · rw [hc] at hnone; cases hnone
            · exact h
          exact ⟨k, by omega, by omega, hn, hnone, hcc,
            fun j hj1 hj2 => hall j (by omega) hj2⟩

/-- C1: over any sequence of model responses in which every response
within the budget carries a (non-empty) list of tool calls that all
dispatch successfully, the loop ends exhausted after exactly the
configured maximum number of turns — never fewer, never more; and the
loop ends with an answer if and only if some earlier response carries no
`tool_calls` at all, every response before it carrying dispatched tool
calls, in which case the answer is that response's content and the
turn count is that response's index plus one. -/
theorem grok_loop_turn_budget :
    (∀ (maxTurns : Nat) (env : ToolEnv) (rs : Nat → AssistantResponse),
      (∀ i, i < maxTurns →
        ∃ calls ms, (rs i).toolCalls = some calls ∧ calls ≠ [] ∧
          execCalls env calls = .ok ms) →
      grokLoop maxTurns env rs = .exhausted maxTurns) ∧
    (∀ (maxTurns : Nat) (env : ToolEnv) (rs : Nat → AssistantResponse)
        (c : Option String) (n : Nat),
      grokLoop maxTurns env rs = .answer c n ↔
        ∃ k, k < maxTurns ∧ n = k + 1 ∧ (rs k).toolCalls = none ∧
          c = (rs k).content ∧
          ∀ j, j < k →
            ∃ calls ms, (rs j).toolCalls = some calls ∧ execCalls env calls = .ok ms) := by
  constructor
  · intro maxTurns env rs h
    have := grokLoopAux_exhaust env rs maxTurns 0
      (fun j _ hj2 => by
        obtain ⟨calls, ms, hc, -, he⟩ := h j (by omega)
        exact ⟨calls, ms, hc, he⟩)
    simpa [grokLoop] using this
  · intro maxTurns env rs c n
    rw [grokLoop, grokLoopAux_answer_iff env rs maxTurns 0 c n]
    constructor
    · rintro ⟨k, -, hk2, hn, hnone, hcc, hall⟩
      exact ⟨k, by omega, hn, hnone, hcc, fun j hj => hall j (by omega) hj⟩
    · rintro ⟨k, hk1, hn, hnone, hcc, hall⟩
      exact ⟨k, by omega, by omega, hn, hnone, hcc, fun j _ hj => hall j hj⟩

theorem grok_loop_turn_budget_witness :
    grokLoop 12 ⟨fun _ => .ok (.arr []), fun _ => .ok (.arr [])⟩
        (fun _ => ⟨none, some [⟨"c1", "web_search", "\x7b\x7d"⟩]⟩) = .exhausted 12 :=
  grok_loop_turn_budget.1 12 _ _
    (fun i _ => ⟨[⟨"c1", "web_search", "\x7b\x7d"⟩], [⟨.tool, some "[]", some "c1", none⟩],
      rfl, by simp, rfl⟩)

end TheScraper
